import Mathlib

/-!
Verification development for crates/zed/src/zed/symbol_ref_hints.rs, the
Symbol Reference Hint Pipeline.

The Rust module is shallowly embedded: buffer anchors and points are
identified with byte offsets (the snapshot conversions to_offset and
to_point are external services and are applied before the data enters the
model), the external symbol and reference services are oracles fixed in an
environment record, and the asynchronous refresh task is a small state
machine whose suspension points are the awaits of the source. A gpui task
handle aborts its future when dropped, so replacing or resetting the
ongoing_task field of the controller means the replaced task never runs
another step; the step relation below encodes that by keeping only the
current task.
-/

set_option maxRecDepth 4096

/-- One outline item: start and end offsets of item.range in the buffer
snapshot, as produced by snapshot.outline(None).items. -/
structure OutlineItem where
  rangeStart : Nat
  rangeEnd : Nat
deriving DecidableEq

/-- project.DocumentSymbol: full range, selection range and children, with
anchors identified with byte offsets. -/
inductive DocumentSymbol where
  | mk (rangeStart rangeEnd selStart selEnd : Nat)
       (children : List DocumentSymbol)

def DocumentSymbol.rangeStart : DocumentSymbol → Nat
  | .mk a _ _ _ _ => a

def DocumentSymbol.rangeEnd : DocumentSymbol → Nat
  | .mk _ b _ _ _ => b

def DocumentSymbol.selStart : DocumentSymbol → Nat
  | .mk _ _ c _ _ => c

def DocumentSymbol.selEnd : DocumentSymbol → Nat
  | .mk _ _ _ d _ => d

def DocumentSymbol.children : DocumentSymbol → List DocumentSymbol
  | .mk _ _ _ _ cs => cs

/-- An inlay as handed to Editor.splice_inlays: numeric id (the payload of
InlayId.SymbolRefHint), display position (an offset) and text. -/
structure Inlay where
  id : Nat
  position : Nat
  text : String
deriving DecidableEq

/-- const HINT_BASE_ID: usize = 900_000_000 (line 22 of the source). -/
def HINT_BASE_ID : Nat := 900000000

/-- const MAX_REMOVE: usize = 1024 (line 23 of the source). -/
def MAX_REMOVE : Nat := 1024

/-- Modulus of u64 arithmetic, for refresh_rev.wrapping_add(1). -/
def U64 : Nat := 2 ^ 64

/-- Outcome of one project.references call, as consumed by the count loop
(lines 207-222): the task resolved to Ok(Some(locations)), Ok(None) or
Err(_), or project.update failed so the query was never issued. -/
inductive QueryOutcome where
  | okSome (locations : List Nat)
  | okNone
  | err
  | notIssued
deriving DecidableEq

/-- The count one query outcome contributes (the match at lines 213-220 and
the else branch at line 219). -/
def countOf : QueryOutcome → Nat
  | .okSome locations => locations.length
  | .okNone => 0
  | .err => 0
  | .notIssued => 0

/-- The count loop at lines 207-222: one query per position, in order, each
outcome mapped through countOf and pushed; the second argument is the index
of the next query to issue. references takes the call index and the queried
position. -/
def collectCounts (references : Nat → Nat → QueryOutcome) :
    List Nat → Nat → List Nat
  | [], _ => []
  | position :: rest, i =>
      countOf (references i position) :: collectCounts references rest (i + 1)

/-- range_start <= item_offset && item_offset < range_end (line 184). -/
def containsOffset (symbol : DocumentSymbol) (offset : Nat) : Prop :=
  symbol.rangeStart ≤ offset ∧ offset < symbol.rangeEnd

instance (symbol : DocumentSymbol) (offset : Nat) :
    Decidable (containsOffset symbol offset) := by
  unfold containsOffset; infer_instance

/-- range.end - range.start, the span compared at lines 188-191. -/
def span (symbol : DocumentSymbol) : Nat :=
  symbol.rangeEnd - symbol.rangeStart

/-- The inner loop of the resolver (lines 180-197): scan the flattened
symbols, keeping the containing symbol of smallest span; on an equal span
the current symbol replaces the previous one (this_span <= prev_span). -/
def bestSymbolLoop (itemOffset : Nat) :
    List DocumentSymbol → Option DocumentSymbol → Option DocumentSymbol
  | [], best => best
  | symbol :: rest, best =>
      let nextBest :=
        if containsOffset symbol itemOffset then
          match best with
          | none => some symbol
          | some prev => if span symbol ≤ span prev then some symbol else some prev
        else best
      bestSymbolLoop itemOffset rest nextBest

/-- best_symbol after the full scan, starting from None (line 180). -/
def bestSymbolFor (itemOffset : Nat) (flatSymbols : List DocumentSymbol) :
    Option DocumentSymbol :=
  bestSymbolLoop itemOffset flatSymbols none

/-- The position chosen for one item (lines 198-201): the selection range
start of the winning symbol, or the item range start if none contains it. -/
def itemQueryPosition (flatSymbols : List DocumentSymbol) (item : OutlineItem) : Nat :=
  match bestSymbolFor item.rangeStart flatSymbols with
  | some symbol => symbol.selStart
  | none => item.rangeStart

/-- positions at lines 173-205: one query position per outline item. -/
def computePositions (flatSymbols : List DocumentSymbol)
    (items : List OutlineItem) : List Nat :=
  items.map (itemQueryPosition flatSymbols)

/-- symbol.children.clear() before pushing onto flat_symbols (line 84). -/
def clearChildren : DocumentSymbol → DocumentSymbol
  | .mk a b c d _ => .mk a b c d []

theorem list_sizeOf_append {α : Type} [SizeOf α] (l1 l2 : List α) :
    sizeOf (l1 ++ l2) + 1 = sizeOf l1 + sizeOf l2 := by
  induction l1 with
  | nil => simp only [List.nil_append, List.nil.sizeOf_spec]; omega
  | cons a l ih => simp only [List.cons_append, List.cons.sizeOf_spec]; omega

theorem list_sizeOf_reverse {α : Type} [SizeOf α] (l : List α) :
    sizeOf l.reverse = sizeOf l := by
  induction l with
  | nil => rfl
  | cons a l ih =>
      have h := list_sizeOf_append l.reverse [a]
      simp only [List.cons.sizeOf_spec, List.nil.sizeOf_spec] at h
      simp only [List.reverse_cons, List.cons.sizeOf_spec]
      omega

theorem children_sizeOf_lt (s : DocumentSymbol) : sizeOf s.children < sizeOf s := by
  cases s with
  | mk a b c d cs =>
      simp only [DocumentSymbol.children, DocumentSymbol.mk.sizeOf_spec]
      omega

/-- The while let Some(symbol) = stack.pop() loop of
flatten_document_symbols (lines 78-86). The first argument is the stack
with its top as the list head (a Vec pops from its end); popping a symbol
pushes its children in order, so after the push the top is the last child,
and the symbol with cleared children is appended to the accumulated flat
list. -/
def flattenLoop :
    List DocumentSymbol → List DocumentSymbol → List DocumentSymbol
  | [], flatSymbols => flatSymbols
  | s :: rest, flatSymbols =>
      flattenLoop (s.children.reverse ++ rest) (flatSymbols ++ [clearChildren s])
termination_by stack _ => sizeOf stack
decreasing_by
  simp only [List.cons.sizeOf_spec]
  have h1 := list_sizeOf_append s.children.reverse rest
  have h2 := list_sizeOf_reverse s.children
  have h3 := children_sizeOf_lt s
  omega

/-- flatten_document_symbols (lines 72-88): stack.append(&mut doc_symbols)
leaves the last input symbol on top, so the head-as-top stack starts as the
reversed input. -/
def flatten_document_symbols (doc_symbols : List DocumentSymbol) :
    List DocumentSymbol :=
  flattenLoop doc_symbols.reverse []

theorem flattenLoop_nil (flatSymbols : List DocumentSymbol) :
    flattenLoop [] flatSymbols = flatSymbols := by
  simp [flattenLoop]

theorem flattenLoop_cons (s : DocumentSymbol) (rest flatSymbols : List DocumentSymbol) :
    flattenLoop (s :: rest) flatSymbols =
      flattenLoop (s.children.reverse ++ rest) (flatSymbols ++ [clearChildren s]) := by
  simp [flattenLoop]

/-- The inlay construction at lines 224-238:
items.into_iter().enumerate().filter_map over anchor_in_excerpt, the id
being HINT_BASE_ID plus the enumeration index and the text
format!("{} ", counts[i]). The running index is the second argument.
counts.getD i 0 renders counts[i]; at every call site counts has the same
length as items, as in the source. -/
def buildInlaysFrom (anchor_in_excerpt : Nat → Option Nat) (counts : List Nat) :
    List OutlineItem → Nat → List Inlay
  | [], _ => []
  | item :: rest, i =>
      match anchor_in_excerpt item.rangeStart with
      | some position =>
          { id := HINT_BASE_ID + i, position := position,
            text := toString (counts.getD i 0) ++ " " } ::
            buildInlaysFrom anchor_in_excerpt counts rest (i + 1)
      | none => buildInlaysFrom anchor_in_excerpt counts rest (i + 1)

/-- The full inlays vector handed to the publish step. -/
def buildInlays (anchor_in_excerpt : Nat → Option Nat)
    (items : List OutlineItem) (counts : List Nat) : List Inlay :=
  buildInlaysFrom anchor_in_excerpt counts items 0

/-- Self::removal_ids() (lines 41-45): the id payloads of the reserved
range, HINT_BASE_ID + i for i below MAX_REMOVE. -/
def removal_ids : List Nat :=
  (List.range MAX_REMOVE).map (fun i => HINT_BASE_ID + i)

/-- Modelled from the spec: the Annotation Sink operation
splice_annotations(remove_ids, insert) of an external editor (the body of
Editor.splice_inlays is not part of this repository): the inlays whose id
is listed are removed and the new inlays are appended, atomically. -/
def splice_inlays (to_remove : List Nat) (to_insert : List Inlay)
    (inlays : List Inlay) : List Inlay :=
  inlays.filter (fun inlay => !(decide (inlay.id ∈ to_remove))) ++ to_insert

/-- The fixed external world one refresh cycle reads: document_symbols is
the already-defaulted result of lines 162-169 (a failed or unissued query
yields the empty list via unwrap_or_default), references the outcome of the
i-th reference query, anchor_in_excerpt the conversion of line 231 that may
fail per item. -/
structure Env where
  document_symbols : List DocumentSymbol
  references : Nat → Nat → QueryOutcome
  anchor_in_excerpt : Nat → Option Nat

/-- The editor entity as this pipeline reads and mutates it:
inlay_hints_enabled(), buffer().as_singleton().is_some(), active_excerpt
(with the outline items of its snapshot), and the inlay set owned by the
display map. -/
structure EditorState where
  inlay_hints_enabled : Bool
  is_singleton : Bool
  active_excerpt : Option (List OutlineItem)
  inlays : List Inlay

/-- How far the spawned async block of refresh_symbol_ref_hints has run:
sleeping awaits the debounce timer (line 146), fetchingSymbols has passed
the post-debounce enablement and revision checks (lines 148-160) and awaits
document_symbols, readyToPublish holds the computed inlays (lines 162-238)
and is about to run the final checks (lines 240-252), finished has
returned. -/
inductive TaskPhase where
  | sleeping
  | fetchingSymbols
  | readyToPublish (inlays : List Inlay)
  | finished
deriving DecidableEq

/-- The data captured by the async move block at lines 144-145: a fresh
identity for the task handle, the captured rev = self.refresh_rev, the
outline items snapshot taken at line 135, and the current phase. -/
structure RefreshTask where
  id : Nat
  rev : Nat
  items : List OutlineItem
  phase : TaskPhase
deriving DecidableEq

/-- The SymbolRefHints controller together with its collaborators: enabled
and refresh_rev are the struct fields, ongoing_task is the Task field
(none models Task::ready(()); dropping the handle aborts the future, so
only the stored task can ever step), next_task_id numbers spawned tasks,
published logs every splice a refresh task performed as (task id, inserted
inlays). -/
structure SysState where
  enabled : Bool
  refresh_rev : Nat
  ongoing_task : Option RefreshTask
  next_task_id : Nat
  editor : EditorState
  env : Env
  published : List (Nat × List Inlay)

/-- cancel_task (lines 37-39): the ongoing task is replaced by
Task::ready(()), aborting it. -/
def cancel_task (s : SysState) : SysState :=
  { s with ongoing_task := none }

/-- bump_and_clear (lines 47-52): refresh_rev.wrapping_add(1) and a splice
removing the whole reserved range while inserting nothing. -/
def bump_and_clear (s : SysState) : SysState :=
  { s with
    refresh_rev := (s.refresh_rev + 1) % U64,
    editor := { s.editor with
      inlays := splice_inlays removal_ids [] s.editor.inlays } }

/-- inlays_enabled (lines 60-62). -/
def inlays_enabled (s : SysState) : Bool :=
  s.enabled && s.editor.inlay_hints_enabled

/-- The synchronous part of refresh_symbol_ref_hints (lines 118-145): a
non-singleton buffer clears and cancels; a missing active excerpt returns
with no effect; otherwise a new task is spawned into ongoing_task (dropping
the previous one) capturing the current refresh_rev and the outline items.
The debounce duration only feeds the timer await and is not part of the
state. -/
def refresh_symbol_ref_hints (s : SysState) : SysState :=
  if !s.editor.is_singleton then
    cancel_task (bump_and_clear s)
  else
    match s.editor.active_excerpt with
    | none => s
    | some items =>
        { s with
          ongoing_task := some
            { id := s.next_task_id, rev := s.refresh_rev,
              items := items, phase := .sleeping },
          next_task_id := s.next_task_id + 1 }

/-- The editor events this pipeline subscribes to (lines 279-289):
bufferEdited stands for any of Reparsed, ExcerptsEdited, Edited,
BufferEdited and Saved, which on_symbols_changed treats alike. -/
inductive EditorEvent where
  | inlayHintsToggled (enabled : Bool)
  | bufferEdited
deriving DecidableEq

/-- on_symbols_changed (lines 90-116): a toggle-off event clears at once;
otherwise disabled hints or a non-singleton buffer clear, and a supported
state schedules a refresh. -/
def on_symbols_changed (s : SysState) (event : EditorEvent) : SysState :=
  match event with
  | .inlayHintsToggled false => bump_and_clear s
  | _ =>
      if !inlays_enabled s then bump_and_clear s
      else if !s.editor.is_singleton then bump_and_clear s
      else refresh_symbol_ref_hints s

/-- The pure computation between the symbol fetch and the publish checks
(lines 171-238): flatten, resolve positions, collect counts, build inlays. -/
def compute_inlays (s : SysState) (t : RefreshTask) : List Inlay :=
  buildInlays s.env.anchor_in_excerpt t.items
    (collectCounts s.env.references
      (computePositions (flatten_document_symbols s.env.document_symbols) t.items) 0)

/-- One resumption of the live async task at its next suspension point.
sleeping: the debounce timer fired; the enablement check of lines 148-153
and the revision check of lines 155-160 run, each returning early on
failure. fetchingSymbols: document_symbols resolved and the whole pure
pipeline up to the inlays vector runs. readyToPublish: the final checks of
lines 240-252 run and, if all pass, the splice of lines 254-256 replaces
the reserved range with the new inlays. A dropped task never steps because
only ongoing_task is stored. -/
def task_step (s : SysState) : SysState :=
  match s.ongoing_task with
  | none => s
  | some t =>
      match t.phase with
      | .sleeping =>
          if !(s.enabled && s.editor.inlay_hints_enabled) then
            { s with ongoing_task := some { t with phase := .finished } }
          else if s.refresh_rev ≠ t.rev then
            { s with ongoing_task := some { t with phase := .finished } }
          else
            { s with ongoing_task := some { t with phase := .fetchingSymbols } }
      | .fetchingSymbols =>
          { s with ongoing_task := some { t with phase := .readyToPublish (compute_inlays s t) } }
      | .readyToPublish inlays =>
          if inlays.isEmpty || !(s.enabled && s.editor.inlay_hints_enabled) then
            { s with ongoing_task := some { t with phase := .finished } }
          else if s.refresh_rev ≠ t.rev then
            { s with ongoing_task := some { t with phase := .finished } }
          else
            { s with
              ongoing_task := some { t with phase := .finished },
              editor := { s.editor with
                inlays := splice_inlays removal_ids inlays s.editor.inlays },
              published := (t.id, inlays) :: s.published }
      | .finished => s

/-- The state change an editor event performs on the editor itself before
the subscription fires: toggling inlay hints updates the editor flag the
subscriber then reads. -/
def apply_editor_event (s : SysState) : EditorEvent → SysState
  | .inlayHintsToggled b =>
      { s with editor := { s.editor with inlay_hints_enabled := b } }
  | .bufferEdited => s

/-- The events the whole system can take a step on: an editor event
delivered to on_symbols_changed, a resumption of the live refresh task, or
an external write to the pub enabled field. -/
inductive Event where
  | editor (e : EditorEvent)
  | taskResume
  | setEnabled (b : Bool)

/-- One system step. -/
def step (s : SysState) : Event → SysState
  | .editor e => on_symbols_changed (apply_editor_event s e) e
  | .taskResume => task_step s
  | .setEnabled b => { s with enabled := b }

/-- Run a sequence of steps. -/
def run (s : SysState) : List Event → SysState
  | [] => s
  | e :: evs => run (step s e) evs

/-- The splices performed by the task with the given id, newest first. -/
def publishes_by (a : Nat) (s : SysState) : List (Nat × List Inlay) :=
  s.published.filter (fun p => p.1 == a)

theorem bestSymbolLoop_cons_not_contains {off : Nat} {symbol : DocumentSymbol}
    (rest : List DocumentSymbol) (best : Option DocumentSymbol)
    (hc : ¬ containsOffset symbol off) :
    bestSymbolLoop off (symbol :: rest) best = bestSymbolLoop off rest best := by
  simp [bestSymbolLoop, hc]

theorem bestSymbolLoop_cons_none {off : Nat} {symbol : DocumentSymbol}
    (rest : List DocumentSymbol) (hc : containsOffset symbol off) :
    bestSymbolLoop off (symbol :: rest) none = bestSymbolLoop off rest (some symbol) := by
  simp [bestSymbolLoop, hc]

theorem bestSymbolLoop_cons_replace {off : Nat} {symbol prev : DocumentSymbol}
    (rest : List DocumentSymbol) (hc : containsOffset symbol off)
    (hsp : span symbol ≤ span prev) :
    bestSymbolLoop off (symbol :: rest) (some prev) =
      bestSymbolLoop off rest (some symbol) := by
  simp [bestSymbolLoop, hc, hsp]

theorem bestSymbolLoop_cons_keep {off : Nat} {symbol prev : DocumentSymbol}
    (rest : List DocumentSymbol) (hc : containsOffset symbol off)
    (hsp : ¬ span symbol ≤ span prev) :
    bestSymbolLoop off (symbol :: rest) (some prev) =
      bestSymbolLoop off rest (some prev) := by
  simp [bestSymbolLoop, hc, hsp]

/-- Invariant characterisation of the resolver scan: starting from a best
candidate that contains the offset (or from none), the result is none
exactly when nothing contains the offset, and otherwise is a containing
symbol of span no larger than every containing symbol scanned and than the
starting candidate. -/
theorem bestSymbolLoop_spec (off : Nat) :
    ∀ (l : List DocumentSymbol) (best : Option DocumentSymbol),
      (∀ b, best = some b → containsOffset b off) →
      (bestSymbolLoop off l best = none →
        best = none ∧ ∀ s ∈ l, ¬ containsOffset s off) ∧
      (∀ r, bestSymbolLoop off l best = some r →
        containsOffset r off ∧ (best = some r ∨ r ∈ l) ∧
        (∀ s ∈ l, containsOffset s off → span r ≤ span s) ∧
        (∀ b, best = some b → span r ≤ span b)) := by
  intro l
  induction l with
  | nil =>
      intro best hbest
      refine ⟨fun h => ⟨h, by simp⟩, fun r hr => ?_⟩
      have hr' : best = some r := hr
      refine ⟨hbest r hr', Or.inl hr', by simp, fun b hb => ?_⟩
      rw [hb] at hr'
      cases hr'
      exact Nat.le_refl _
  | cons symbol rest ih =>
      intro best hbest
      by_cases hc : containsOffset symbol off
      · cases best with
        | none =>
            rw [bestSymbolLoop_cons_none rest hc]
            have hnb : ∀ b, (some symbol : Option DocumentSymbol) = some b →
                containsOffset b off := by
              intro b hb; cases hb; exact hc
            obtain ⟨ih1, ih2⟩ := ih (some symbol) hnb
            refine ⟨fun h => absurd (ih1 h).1 (by simp), fun r hr => ?_⟩
            obtain ⟨hcont, hmem, hmin, hble⟩ := ih2 r hr
            refine ⟨hcont, ?_, ?_, ?_⟩
            · rcases hmem with h | h
              · cases h; exact Or.inr (List.mem_cons_self _ _)
              · exact Or.inr (List.mem_cons_of_mem _ h)
            · intro s hs hcs
              rcases List.mem_cons.mp hs with h | h
              · cases h; exact hble symbol rfl
              · exact hmin s h hcs
            · intro b hb; cases hb
        | some prev =>
            have hprev : containsOffset prev off := hbest prev rfl
            by_cases hsp : span symbol ≤ span prev
            · rw [bestSymbolLoop_cons_replace rest hc hsp]
              have hnb : ∀ b, (some symbol : Option DocumentSymbol) = some b →
                  containsOffset b off := by
                intro b hb; cases hb; exact hc
              obtain ⟨ih1, ih2⟩ := ih (some symbol) hnb
              refine ⟨fun h => absurd (ih1 h).1 (by simp), fun r hr => ?_⟩
              obtain ⟨hcont, hmem, hmin, hble⟩ := ih2 r hr
              refine ⟨hcont, ?_, ?_, ?_⟩
              · rcases hmem with h | h
                · cases h; exact Or.inr (List.mem_cons_self _ _)
                · exact Or.inr (List.mem_cons_of_mem _ h)
              · intro s hs hcs
                rcases List.mem_cons.mp hs with h | h
                · cases h; exact hble symbol rfl
                · exact hmin s h hcs
              · intro b hb
                cases hb
                exact Nat.le_trans (hble symbol rfl) hsp
            · rw [bestSymbolLoop_cons_keep rest hc hsp]
              obtain ⟨ih1, ih2⟩ := ih (some prev) hbest
              refine ⟨fun h => absurd (ih1 h).1 (by simp), fun r hr => ?_⟩
              obtain ⟨hcont, hmem, hmin, hble⟩ := ih2 r hr
              refine ⟨hcont, ?_, ?_, ?_⟩
              · rcases hmem with h | h
                · exact Or.inl h
                · exact Or.inr (List.mem_cons_of_mem _ h)
              · intro s hs hcs
                rcases List.mem_cons.mp hs with h | h
                · cases h
                  exact Nat.le_trans (hble prev rfl)
                    (Nat.le_of_lt (Nat.lt_of_not_le hsp))
                · exact hmin s h hcs
              · exact hble
      · rw [bestSymbolLoop_cons_not_contains rest best hc]
        obtain ⟨ih1, ih2⟩ := ih best hbest
        refine ⟨fun h => ?_, fun r hr => ?_⟩
        · obtain ⟨h1, h2⟩ := ih1 h
          refine ⟨h1, ?_⟩
          intro s hs
          rcases List.mem_cons.mp hs with h | h
          · cases h; exact hc
          · exact h2 s h
        · obtain ⟨hcont, hmem, hmin, hble⟩ := ih2 r hr
          refine ⟨hcont, ?_, ?_, hble⟩
          · rcases hmem with h | h
            · exact Or.inl h
            · exact Or.inr (List.mem_cons_of_mem _ h)
          · intro s hs hcs
            rcases List.mem_cons.mp hs with h | h
            · cases h; exact absurd hcs hc
            · exact hmin s h hcs

/-- The count loop never aborts: starting at call index j it produces one
count per position, and the count at offset i is exactly the mapped outcome
of call j + i. -/
theorem collectCounts_spec (references : Nat → Nat → QueryOutcome) :
    ∀ (positions : List Nat) (j : Nat),
      (collectCounts references positions j).length = positions.length ∧
      (∀ i, i < positions.length →
        (collectCounts references positions j).getD i 0 =
          countOf (references (j + i) (positions.getD i 0))) := by
  intro positions
  induction positions with
  | nil => intro j; exact ⟨rfl, by intro i hi; cases hi⟩
  | cons position rest ih =>
      intro j
      obtain ⟨ihl, ihe⟩ := ih (j + 1)
      refine ⟨by simp [collectCounts, ihl], ?_⟩
      intro i hi
      cases i with
      | zero => simp [collectCounts]
      | succ k =>
          have hk : k < rest.length := by
            simpa [Nat.succ_lt_succ_iff] using hi
          have h := ihe k hk
          simp only [collectCounts, List.getD_cons_succ]
          rw [h]
          have : j + 1 + k = j + (k + 1) := by omega
          rw [this]

/-- Every id the inlay construction emits, starting at enumeration index i,
is HINT_BASE_ID plus an index below i plus the number of items. -/
theorem buildInlaysFrom_id_bound (anchor_in_excerpt : Nat → Option Nat)
    (counts : List Nat) :
    ∀ (items : List OutlineItem) (i : Nat) (inlay : Inlay),
      inlay ∈ buildInlaysFrom anchor_in_excerpt counts items i →
      ∃ k, k < items.length ∧ inlay.id = HINT_BASE_ID + (i + k) := by
  intro items
  induction items with
  | nil => intro i inlay h; cases h
  | cons item rest ih =>
      intro i inlay h
      unfold buildInlaysFrom at h
      cases hanchor : anchor_in_excerpt item.rangeStart with
      | none =>
          rw [hanchor] at h
          obtain ⟨k, hk, hid⟩ := ih (i + 1) inlay h
          exact ⟨k + 1, by simp [Nat.succ_lt_succ_iff, hk], by omega⟩
      | some position =>
          rw [hanchor] at h
          rcases List.mem_cons.mp h with h | h
          · exact ⟨0, by simp, by simp [h]⟩
          · obtain ⟨k, hk, hid⟩ := ih (i + 1) inlay h
            exact ⟨k + 1, by simp [Nat.succ_lt_succ_iff, hk], by omega⟩

/-- When every anchor conversion succeeds, the id HINT_BASE_ID + (i + k) is
emitted for every index k below the number of items. -/
theorem buildInlaysFrom_id_mem (counts : List Nat) :
    ∀ (items : List OutlineItem) (i k : Nat), k < items.length →
      HINT_BASE_ID + (i + k) ∈
        (buildInlaysFrom (fun o => some o) counts items i).map Inlay.id := by
  intro items
  induction items with
  | nil => intro i k hk; cases hk
  | cons item rest ih =>
      intro i k hk
      cases k with
      | zero =>
          simp [buildInlaysFrom]
      | succ m =>
          have hm : m < rest.length := by
            simpa [Nat.succ_lt_succ_iff] using hk
          have h := ih (i + 1) m hm
          have harith : i + 1 + m = i + (m + 1) := by omega
          rw [harith] at h
          simp only [buildInlaysFrom, List.map_cons]
          exact List.mem_cons_of_mem _ h

/-- Membership in the reserved removal range is exactly the interval
[HINT_BASE_ID, HINT_BASE_ID + MAX_REMOVE). -/
theorem mem_removal_ids (id : Nat) :
    id ∈ removal_ids ↔ HINT_BASE_ID ≤ id ∧ id < HINT_BASE_ID + MAX_REMOVE := by
  unfold removal_ids
  simp only [List.mem_map, List.mem_range]
  constructor
  · rintro ⟨i, hi, rfl⟩
    omega
  · rintro ⟨h1, h2⟩
    exact ⟨id - HINT_BASE_ID, by omega, by omega⟩

/-- After a splice that inserts nothing, no inlay of the removed id list
remains. -/
theorem splice_removes (to_remove : List Nat) (inlays : List Inlay) :
    ∀ inlay ∈ splice_inlays to_remove [] inlays, inlay.id ∉ to_remove := by
  intro inlay h
  unfold splice_inlays at h
  rw [List.append_nil] at h
  have := List.of_mem_filter h
  simpa using this

theorem bump_and_clear_frame (s : SysState) :
    (bump_and_clear s).ongoing_task = s.ongoing_task ∧
    (bump_and_clear s).next_task_id = s.next_task_id ∧
    (bump_and_clear s).published = s.published :=
  ⟨rfl, rfl, rfl⟩

theorem apply_editor_event_frame (s : SysState) (ev : EditorEvent) :
    (apply_editor_event s ev).ongoing_task = s.ongoing_task ∧
    (apply_editor_event s ev).next_task_id = s.next_task_id ∧
    (apply_editor_event s ev).published = s.published := by
  cases ev <;> exact ⟨rfl, rfl, rfl⟩

/-- A refresh call either clears and cancels (non-singleton), does nothing
(no active excerpt), or spawns the task numbered next_task_id. -/
theorem refresh_cases (s : SysState) :
    refresh_symbol_ref_hints s = cancel_task (bump_and_clear s) ∨
    refresh_symbol_ref_hints s = s ∨
    ∃ items, s.editor.active_excerpt = some items ∧
      refresh_symbol_ref_hints s =
        { s with
          ongoing_task := some
            { id := s.next_task_id, rev := s.refresh_rev,
              items := items, phase := .sleeping },
          next_task_id := s.next_task_id + 1 } := by
  unfold refresh_symbol_ref_hints
  by_cases h1 : (!s.editor.is_singleton) = true
  · rw [if_pos h1]; exact Or.inl rfl
  · rw [if_neg h1]
    cases hae : s.editor.active_excerpt with
    | none => exact Or.inr (Or.inl rfl)
    | some items => exact Or.inr (Or.inr ⟨items, rfl, rfl⟩)

/-- Delivering an editor event either runs bump_and_clear or runs a
refresh. -/
theorem on_symbols_changed_cases (s : SysState) (ev : EditorEvent) :
    on_symbols_changed s ev = bump_and_clear s ∨
    on_symbols_changed s ev = refresh_symbol_ref_hints s := by
  unfold on_symbols_changed
  cases ev with
  | inlayHintsToggled b =>
      cases b with
      | false => exact Or.inl rfl
      | true =>
          by_cases h1 : (!inlays_enabled s) = true
          · rw [if_pos h1]; exact Or.inl rfl
          · rw [if_neg h1]
            by_cases h2 : (!s.editor.is_singleton) = true
            · rw [if_pos h2]; exact Or.inl rfl
            · rw [if_neg h2]; exact Or.inr rfl
  | bufferEdited =>
      by_cases h1 : (!inlays_enabled s) = true
      · rw [if_pos h1]; exact Or.inl rfl
      · rw [if_neg h1]
        by_cases h2 : (!s.editor.is_singleton) = true
        · rw [if_pos h2]; exact Or.inl rfl
        · rw [if_neg h2]; exact Or.inr rfl

/-- A task resumption leaves the state alone, advances the phase of the
ongoing task, or additionally performs the publish splice tagged with the
id of the ongoing task. -/
theorem task_step_cases (s : SysState) :
    task_step s = s ∨
    (∃ t p, s.ongoing_task = some t ∧
      task_step s = { s with ongoing_task := some { t with phase := p } }) ∨
    (∃ t inlays, s.ongoing_task = some t ∧
      task_step s = { s with
        ongoing_task := some { t with phase := .finished },
        editor := { s.editor with
          inlays := splice_inlays removal_ids inlays s.editor.inlays },
        published := (t.id, inlays) :: s.published }) := by
  unfold task_step
  cases hot : s.ongoing_task with
  | none => exact Or.inl rfl
  | some t =>
      dsimp only
      cases hph : t.phase with
      | sleeping =>
          dsimp only
          by_cases h1 : (!(s.enabled && s.editor.inlay_hints_enabled)) = true
          · rw [if_pos h1]; exact Or.inr (Or.inl ⟨t, _, rfl, rfl⟩)
          · rw [if_neg h1]
            by_cases h2 : s.refresh_rev ≠ t.rev
            · rw [if_pos h2]; exact Or.inr (Or.inl ⟨t, _, rfl, rfl⟩)
            · rw [if_neg h2]; exact Or.inr (Or.inl ⟨t, _, rfl, rfl⟩)
      | fetchingSymbols => exact Or.inr (Or.inl ⟨t, _, rfl, rfl⟩)
      | readyToPublish inlays =>
          dsimp only
          by_cases h1 : (inlays.isEmpty || !(s.enabled && s.editor.inlay_hints_enabled)) = true
          · rw [if_pos h1]; exact Or.inr (Or.inl ⟨t, _, rfl, rfl⟩)
          · rw [if_neg h1]
            by_cases h2 : s.refresh_rev ≠ t.rev
            · rw [if_pos h2]; exact Or.inr (Or.inl ⟨t, _, rfl, rfl⟩)
            · rw [if_neg h2]; exact Or.inr (Or.inr ⟨t, inlays, rfl, rfl⟩)
      | finished => exact Or.inl rfl

/-- Once the ongoing task is not the task numbered a and a is an already
used task number, a system step keeps both facts and adds no publish log
entry tagged a. -/
theorem step_preserves_superseded (a : Nat) (s : SysState) (e : Event)
    (h1 : s.ongoing_task.map RefreshTask.id ≠ some a)
    (h2 : a < s.next_task_id) :
    (step s e).ongoing_task.map RefreshTask.id ≠ some a ∧
    a < (step s e).next_task_id ∧
    publishes_by a (step s e) = publishes_by a s := by
  cases e with
  | setEnabled b => exact ⟨h1, h2, rfl⟩
  | taskResume =>
      have hstep : step s .taskResume = task_step s := rfl
      rcases task_step_cases s with h | ⟨t, p, hot, heq⟩ | ⟨t, inlays, hot, heq⟩
      · rw [hstep, h]; exact ⟨h1, h2, rfl⟩
      · rw [hstep, heq]
        refine ⟨?_, h2, rfl⟩
        intro hcontra
        apply h1
        rw [hot]
        exact hcontra
      · rw [hstep, heq]
        have hta : t.id ≠ a := by
          intro hcontra
          apply h1
          rw [hot]
          show (some t.id : Option Nat) = some a
          rw [hcontra]
        refine ⟨?_, h2, ?_⟩
        · show (some t.id : Option Nat) ≠ some a
          simpa using hta
        · show ((t.id, inlays) :: s.published).filter (fun p => p.1 == a) =
            s.published.filter (fun p => p.1 == a)
          rw [List.filter_cons]
          simp [hta]
  | editor ev =>
      have hstep : step s (.editor ev) =
          on_symbols_changed (apply_editor_event s ev) ev := rfl
      obtain ⟨a1, a2, a3⟩ := apply_editor_event_frame s ev
      rcases on_symbols_changed_cases (apply_editor_event s ev) ev with h | h
      · rw [hstep, h]
        refine ⟨?_, ?_, ?_⟩
        · show (apply_editor_event s ev).ongoing_task.map RefreshTask.id ≠ some a
          rw [a1]; exact h1
        · show a < (apply_editor_event s ev).next_task_id
          rw [a2]; exact h2
        · show ((apply_editor_event s ev).published).filter (fun p => p.1 == a) =
            s.published.filter (fun p => p.1 == a)
          rw [a3]
      · rw [hstep, h]
        rcases refresh_cases (apply_editor_event s ev) with hr | hr | ⟨items, hae, hr⟩
        · rw [hr]
          refine ⟨by simp [cancel_task], ?_, ?_⟩
          · show a < (apply_editor_event s ev).next_task_id
            rw [a2]; exact h2
          · show ((apply_editor_event s ev).published).filter (fun p => p.1 == a) =
              s.published.filter (fun p => p.1 == a)
            rw [a3]
        · rw [hr]
          refine ⟨?_, ?_, ?_⟩
          · rw [a1]; exact h1
          · rw [a2]; exact h2
          · show ((apply_editor_event s ev).published).filter (fun p => p.1 == a) =
              s.published.filter (fun p => p.1 == a)
            rw [a3]
        · rw [hr]
          refine ⟨?_, ?_, ?_⟩
          · show (some ((apply_editor_event s ev).next_task_id) : Option Nat) ≠ some a
            rw [a2]
            intro hcontra
            rw [Option.some_inj] at hcontra
            omega
          · show a < (apply_editor_event s ev).next_task_id + 1
            rw [a2]; omega
          · show ((apply_editor_event s ev).published).filter (fun p => p.1 == a) =
              s.published.filter (fun p => p.1 == a)
            rw [a3]

/-- Running any event sequence from a state where the task numbered a has
been superseded adds no publish log entry tagged a. -/
theorem run_preserves_superseded (a : Nat) :
    ∀ (evs : List Event) (s : SysState),
      s.ongoing_task.map RefreshTask.id ≠ some a →
      a < s.next_task_id →
      publishes_by a (run s evs) = publishes_by a s := by
  intro evs
  induction evs with
  | nil => intro s _ _; rfl
  | cons e evs ih =>
      intro s h1 h2
      obtain ⟨g1, g2, g3⟩ := step_preserves_superseded a s e h1 h2
      rw [run, ih (step s e) g1 g2, g3]

theorem bestSymbolLoop_cons_eq (off : Nat) (symbol : DocumentSymbol)
    (rest : List DocumentSymbol) (best : Option DocumentSymbol) :
    bestSymbolLoop off (symbol :: rest) best =
      bestSymbolLoop off rest
        (if containsOffset symbol off then
          match best with
          | none => some symbol
          | some prev =>
              if span symbol ≤ span prev then some symbol else some prev
         else best) := rfl

theorem bestSymbolLoop_append (off : Nat) :
    ∀ (l1 l2 : List DocumentSymbol) (best : Option DocumentSymbol),
      bestSymbolLoop off (l1 ++ l2) best =
        bestSymbolLoop off l2 (bestSymbolLoop off l1 best) := by
  intro l1
  induction l1 with
  | nil => intro l2 best; rfl
  | cons symbol rest ih =>
      intro l2 best
      rw [List.cons_append, bestSymbolLoop_cons_eq, bestSymbolLoop_cons_eq, ih]

/-- A symbol with range [0, 10) and selection start 1. -/
def symA : DocumentSymbol := .mk 0 10 1 2 []

/-- A symbol with range [2, 12), the same span 10 as symA, selection
start 3. -/
def symB : DocumentSymbol := .mk 2 12 3 4 []

/-- C7: for every outline entry, if some flattened symbol contains the
entry's start offset, the reference query position resolves to the
selection range start of a containing symbol of smallest span; if no symbol
contains the entry's start, the query position equals the entry's own
start. -/
theorem c7_query_position_containment (flatSymbols : List DocumentSymbol)
    (item : OutlineItem) :
    ((∀ s ∈ flatSymbols, ¬ containsOffset s item.rangeStart) →
      itemQueryPosition flatSymbols item = item.rangeStart) ∧
    ((∃ s ∈ flatSymbols, containsOffset s item.rangeStart) →
      ∃ s ∈ flatSymbols, containsOffset s item.rangeStart ∧
        (∀ u ∈ flatSymbols, containsOffset u item.rangeStart → span s ≤ span u) ∧
        itemQueryPosition flatSymbols item = s.selStart) := by
  obtain ⟨hnone, hsome⟩ :=
    bestSymbolLoop_spec item.rangeStart flatSymbols none (by intro b hb; cases hb)
  constructor
  · intro hno
    unfold itemQueryPosition bestSymbolFor
    cases hbest : bestSymbolLoop item.rangeStart flatSymbols none with
    | none => rfl
    | some r =>
        obtain ⟨hcont, hmem, _, _⟩ := hsome r hbest
        rcases hmem with h | h
        · cases h
        · exact absurd hcont (hno r h)
  · intro hex
    unfold itemQueryPosition bestSymbolFor
    cases hbest : bestSymbolLoop item.rangeStart flatSymbols none with
    | none =>
        obtain ⟨s, hs, hcs⟩ := hex
        exact absurd hcs ((hnone hbest).2 s hs)
    | some r =>
        obtain ⟨hcont, hmem, hmin, _⟩ := hsome r hbest
        rcases hmem with h | h
        · cases h
        · exact ⟨r, h, hcont, hmin, rfl⟩

/-- Witness for C7 at a concrete input: the single symbol symA contains
offset 5, has the smallest span, and the query position is its selection
start. -/
theorem c7_query_position_containment_witness :
    ∃ s ∈ [symA], containsOffset s (5 : Nat) ∧
      (∀ u ∈ [symA], containsOffset u 5 → span s ≤ span u) ∧
      itemQueryPosition [symA] ⟨5, 6⟩ = s.selStart :=
  (c7_query_position_containment [symA] ⟨5, 6⟩).2
    ⟨symA, List.mem_singleton.mpr rfl, by decide⟩

/-- C6 counterexample: symA and symB have equal span 10 and both contain
offset 5; scanning [symA, symB] the resolver keeps symB, the last seen,
whose selection start 3 differs from the selection start 1 of the
first-seen symA. -/
theorem c6_counterexample :
    (bestSymbolFor 5 [symA, symB]).map DocumentSymbol.selStart = some 3 ∧
    (3 : Nat) ≠ 1 := by
  exact ⟨rfl, by decide⟩

/-- C6 amended: when two or more containing symbols share the smallest
span, the last-seen candidate in iteration order over the flattened symbol
set wins: a final containing symbol whose span is no larger than that of
every containing symbol seen before it is the resolver result. -/
theorem c6_tie_keeps_last_seen (l : List DocumentSymbol) (s : DocumentSymbol)
    (off : Nat) (hc : containsOffset s off)
    (hmin : ∀ u ∈ l, containsOffset u off → span s ≤ span u) :
    bestSymbolFor off (l ++ [s]) = some s := by
  unfold bestSymbolFor
  rw [bestSymbolLoop_append]
  obtain ⟨hnone, hsome⟩ :=
    bestSymbolLoop_spec off l none (by intro b hb; cases hb)
  cases hbest : bestSymbolLoop off l none with
  | none =>
      rw [bestSymbolLoop_cons_eq, if_pos hc]
      rfl
  | some prev =>
      obtain ⟨hcont, hmem, _, _⟩ := hsome prev hbest
      rcases hmem with h | h
      · cases h
      · have hsp : span s ≤ span prev := hmin prev h hcont
        rw [bestSymbolLoop_cons_eq, if_pos hc]
        show bestSymbolLoop off []
          (if span s ≤ span prev then some s else some prev) = some s
        rw [if_pos hsp]
        rfl

/-- Witness for the amended C6: symB, scanned after symA with the same
span, wins the tie. -/
theorem c6_tie_keeps_last_seen_witness :
    bestSymbolFor 5 ([symA] ++ [symB]) = some symB :=
  c6_tie_keeps_last_seen [symA] symB 5 (by decide)
    (by
      intro u hu hcu
      rw [List.mem_singleton] at hu
      subst hu
      decide)

/-- C8: the count loop issues one query per anchor position and never
aborts: the counts list has exactly one entry per position, the entry at
index i is the mapped outcome of query i, and a query that errors, returns
no result, or cannot be issued contributes exactly 0 while later queries
are still issued. -/
theorem c8_failures_contribute_zero (references : Nat → Nat → QueryOutcome)
    (positions : List Nat) :
    (collectCounts references positions 0).length = positions.length ∧
    (∀ i, i < positions.length →
      (collectCounts references positions 0).getD i 0 =
        countOf (references i (positions.getD i 0))) ∧
    (∀ i, i < positions.length →
      (references i (positions.getD i 0) = .okNone ∨
       references i (positions.getD i 0) = .err ∨
       references i (positions.getD i 0) = .notIssued) →
      (collectCounts references positions 0).getD i 0 = 0) := by
  obtain ⟨hlen, helem⟩ := collectCounts_spec references positions 0
  refine ⟨hlen, ?_, ?_⟩
  · intro i hi
    have h := helem i hi
    rw [Nat.zero_add] at h
    exact h
  · intro i hi hout
    have h := helem i hi
    rw [Nat.zero_add] at h
    rw [h]
    rcases hout with h0 | h0 | h0 <;> rw [h0] <;> rfl

/-- Oracle for the C8 witness: the first query errors, later ones return
no result. -/
def c8refs : Nat → Nat → QueryOutcome :=
  fun i _ => if i = 0 then .err else .okNone

/-- Witness for C8 at a concrete input: with the first query erroring, the
loop still produces one count per position and the erroring query
contributes 0. -/
theorem c8_failures_contribute_zero_witness :
    (collectCounts c8refs [7, 9] 0).length = 2 ∧
    (collectCounts c8refs [7, 9] 0).getD 0 0 = 0 :=
  ⟨(c8_failures_contribute_zero c8refs [7, 9]).1,
   (c8_failures_contribute_zero c8refs [7, 9]).2.2 0 (by decide)
     (Or.inr (Or.inl rfl))⟩

/-- C2 amended: every id the publish step emits is HINT_BASE_ID plus the
enumeration index of its entry, so all emitted ids lie inside the reserved
range [HINT_BASE_ID, HINT_BASE_ID + MAX_REMOVE) exactly when the number of
outline entries is at most MAX_REMOVE; with more entries, ids beyond the
reserved range are emitted. -/
theorem c2_ids_bounded_within_capacity (anchor_in_excerpt : Nat → Option Nat)
    (items : List OutlineItem) (counts : List Nat)
    (hcap : items.length ≤ MAX_REMOVE) :
    ∀ inlay ∈ buildInlays anchor_in_excerpt items counts,
      HINT_BASE_ID ≤ inlay.id ∧ inlay.id < HINT_BASE_ID + MAX_REMOVE := by
  intro inlay hmem
  obtain ⟨k, hk, hid⟩ :=
    buildInlaysFrom_id_bound anchor_in_excerpt counts items 0 inlay hmem
  constructor <;> omega

/-- MAX_REMOVE + 1 outline entries, one per unit offset. -/
def manyItems : List OutlineItem :=
  (List.range (MAX_REMOVE + 1)).map (fun i => ⟨i, i + 1⟩)

/-- C2 counterexample: with MAX_REMOVE + 1 outline entries and every anchor
conversion succeeding, the publish step emits the id
HINT_BASE_ID + MAX_REMOVE, which lies outside the reserved range. -/
theorem c2_counterexample :
    (HINT_BASE_ID + MAX_REMOVE) ∈
      (buildInlays (fun o => some o) manyItems []).map Inlay.id ∧
    ¬ (HINT_BASE_ID + MAX_REMOVE < HINT_BASE_ID + MAX_REMOVE) := by
  constructor
  · have hlen : MAX_REMOVE < manyItems.length := by
      simp [manyItems]
    have h := buildInlaysFrom_id_mem [] manyItems 0 MAX_REMOVE hlen
    simpa [buildInlays] using h
  · omega

/-- Witness for the amended C2 at a concrete input: one entry, anchor
succeeding, the single emitted id HINT_BASE_ID lies in the reserved
range. -/
theorem c2_ids_bounded_within_capacity_witness :
    HINT_BASE_ID ≤ HINT_BASE_ID ∧ HINT_BASE_ID < HINT_BASE_ID + MAX_REMOVE :=
  c2_ids_bounded_within_capacity (fun o => some o) [⟨0, 1⟩] [2] (by decide)
    { id := HINT_BASE_ID, position := 0, text := "2 " } (by decide)

/-- An environment whose external services all fail. -/
def emptyEnv : Env :=
  { document_symbols := [],
    references := fun _ _ => .err,
    anchor_in_excerpt := fun _ => none }

/-- C10: a refresh attempted on a singleton editor with no active excerpt
returns with no side effect: previously published inlays stay in place, the
refresh revision is unchanged and the ongoing task is not replaced. -/
theorem c10_no_excerpt_no_side_effect (s : SysState)
    (hsing : s.editor.is_singleton = true)
    (hexc : s.editor.active_excerpt = none) :
    (refresh_symbol_ref_hints s).editor.inlays = s.editor.inlays ∧
    (refresh_symbol_ref_hints s).refresh_rev = s.refresh_rev ∧
    (refresh_symbol_ref_hints s).ongoing_task = s.ongoing_task := by
  have h : refresh_symbol_ref_hints s = s := by
    unfold refresh_symbol_ref_hints
    rw [hsing, if_neg (by decide), hexc]
  rw [h]
  exact ⟨rfl, rfl, rfl⟩

/-- A singleton editor holding one published hint but no active excerpt. -/
def c10state : SysState :=
  { enabled := true, refresh_rev := 3, ongoing_task := none,
    next_task_id := 1,
    editor := { inlay_hints_enabled := true, is_singleton := true,
                active_excerpt := none,
                inlays := [{ id := HINT_BASE_ID, position := 0, text := "1 " }] },
    env := emptyEnv, published := [] }

/-- Witness for C10 at a concrete state: the stale hint stays, the revision
stays 3, the task stays Task::ready(()). -/
theorem c10_no_excerpt_no_side_effect_witness :
    (refresh_symbol_ref_hints c10state).editor.inlays = c10state.editor.inlays ∧
    (refresh_symbol_ref_hints c10state).refresh_rev = c10state.refresh_rev ∧
    (refresh_symbol_ref_hints c10state).ongoing_task = c10state.ongoing_task :=
  c10_no_excerpt_no_side_effect c10state rfl rfl

theorem apply_editor_event_singleton (s : SysState) (ev : EditorEvent) :
    (apply_editor_event s ev).editor.is_singleton = s.editor.is_singleton := by
  cases ev <;> rfl

theorem apply_editor_event_inlays (s : SysState) (ev : EditorEvent) :
    (apply_editor_event s ev).editor.inlays = s.editor.inlays := by
  cases ev <;> rfl

/-- Under a disabling condition, an editor event runs exactly
bump_and_clear. -/
theorem on_symbols_changed_disable (s1 : SysState) (ev : EditorEvent)
    (hdis : ev = .inlayHintsToggled false ∨ inlays_enabled s1 = false ∨
      s1.editor.is_singleton = false) :
    on_symbols_changed s1 ev = bump_and_clear s1 := by
  unfold on_symbols_changed
  cases ev with
  | inlayHintsToggled b =>
      cases b with
      | false => rfl
      | true =>
          rcases hdis with h | h | h
          · exact absurd h (by decide)
          · rw [if_pos (by rw [h]; rfl)]
          · by_cases h1 : (!inlays_enabled s1) = true
            · rw [if_pos h1]
            · rw [if_neg h1, if_pos (by rw [h]; rfl)]
  | bufferEdited =>
      rcases hdis with h | h | h
      · exact absurd h (by simp)
      · rw [if_pos (by rw [h]; rfl)]
      · by_cases h1 : (!inlays_enabled s1) = true
        · rw [if_pos h1]
        · rw [if_neg h1, if_pos (by rw [h]; rfl)]

/-- C9: any disabling signal (inlay hints toggled off, the feature or
hints disabled, or a multi-excerpt buffer) makes the delivered event splice
out the entire reserved range while inserting nothing, leaves the ongoing
task field alone and schedules no new refresh; no inlay with a reserved
range id remains in the sink. -/
theorem c9_disable_clears_reserved_range (s : SysState) (ev : EditorEvent)
    (hdis : ev = .inlayHintsToggled false ∨
      inlays_enabled (apply_editor_event s ev) = false ∨
      s.editor.is_singleton = false) :
    (step s (.editor ev)).editor.inlays =
      splice_inlays removal_ids [] s.editor.inlays ∧
    (∀ inlay ∈ (step s (.editor ev)).editor.inlays,
      ¬ (HINT_BASE_ID ≤ inlay.id ∧ inlay.id < HINT_BASE_ID + MAX_REMOVE)) ∧
    (step s (.editor ev)).ongoing_task = s.ongoing_task ∧
    (step s (.editor ev)).next_task_id = s.next_task_id := by
  have hb : step s (.editor ev) = bump_and_clear (apply_editor_event s ev) :=
    on_symbols_changed_disable (apply_editor_event s ev) ev (by
      rcases hdis with h | h | h
      · exact Or.inl h
      · exact Or.inr (Or.inl h)
      · exact Or.inr (Or.inr (by rw [apply_editor_event_singleton]; exact h)))
  obtain ⟨a1, a2, a3⟩ := apply_editor_event_frame s ev
  rw [hb]
  refine ⟨?_, ?_, ?_, ?_⟩
  · show splice_inlays removal_ids [] (apply_editor_event s ev).editor.inlays =
      splice_inlays removal_ids [] s.editor.inlays
    rw [apply_editor_event_inlays]
  · intro inlay hmem
    have h := splice_removes removal_ids
      ((apply_editor_event s ev).editor.inlays) inlay hmem
    rw [mem_removal_ids] at h
    exact h
  · exact a1
  · exact a2

/-- An enabled singleton editor holding one published hint. -/
def c9state : SysState :=
  { enabled := true, refresh_rev := 0, ongoing_task := none, next_task_id := 0,
    editor := { inlay_hints_enabled := true, is_singleton := true,
                active_excerpt := none,
                inlays := [{ id := HINT_BASE_ID, position := 0, text := "1 " }] },
    env := emptyEnv, published := [] }

/-- Witness for C9 at a concrete state: toggling inlay hints off splices
out the reserved range without inserting and schedules nothing. -/
theorem c9_disable_clears_reserved_range_witness :
    (step c9state (.editor (.inlayHintsToggled false))).editor.inlays =
      splice_inlays removal_ids [] c9state.editor.inlays ∧
    (step c9state (.editor (.inlayHintsToggled false))).next_task_id =
      c9state.next_task_id :=
  ⟨(c9_disable_clears_reserved_range c9state _ (Or.inl rfl)).1,
   (c9_disable_clears_reserved_range c9state _ (Or.inl rfl)).2.2.2⟩

/-- C4 amended: an activation that proceeds to schedule does not bump the
refresh revision: when hints are enabled on a singleton buffer with an
active excerpt, delivering an edit event spawns a new refresh task while
leaving refresh_rev exactly unchanged; only the disabling paths through
bump_and_clear ever bump it. -/
theorem c4_schedule_leaves_revision_unchanged (s : SysState)
    (hen : inlays_enabled s = true)
    (hsing : s.editor.is_singleton = true)
    (items : List OutlineItem)
    (hexc : s.editor.active_excerpt = some items) :
    (on_symbols_changed s .bufferEdited).refresh_rev = s.refresh_rev ∧
    (on_symbols_changed s .bufferEdited).ongoing_task.map RefreshTask.id =
      some s.next_task_id := by
  have h : on_symbols_changed s .bufferEdited =
      { s with
        ongoing_task := some
          { id := s.next_task_id, rev := s.refresh_rev,
            items := items, phase := .sleeping },
        next_task_id := s.next_task_id + 1 } := by
    unfold on_symbols_changed refresh_symbol_ref_hints
    rw [hen, hsing, hexc]
    rfl
  rw [h]
  exact ⟨rfl, rfl⟩

/-- An enabled singleton editor with an active excerpt of one outline
item. -/
def readyState : SysState :=
  { enabled := true, refresh_rev := 0, ongoing_task := none, next_task_id := 0,
    editor := { inlay_hints_enabled := true, is_singleton := true,
                active_excerpt := some [⟨0, 1⟩], inlays := [] },
    env := emptyEnv, published := [] }

/-- C4 counterexample: delivering an edit event to an enabled singleton
editor with an active excerpt proceeds to schedule (the task numbered 0 is
spawned) yet refresh_rev stays 0: it is not strictly greater than before
the call. -/
theorem c4_counterexample :
    (on_symbols_changed readyState .bufferEdited).ongoing_task.map
      RefreshTask.id = some 0 ∧
    (on_symbols_changed readyState .bufferEdited).refresh_rev = 0 ∧
    ¬ (readyState.refresh_rev <
        (on_symbols_changed readyState .bufferEdited).refresh_rev) :=
  ⟨rfl, rfl, by decide⟩

/-- Witness for the amended C4 at a concrete state. -/
theorem c4_schedule_leaves_revision_unchanged_witness :
    (on_symbols_changed readyState .bufferEdited).refresh_rev =
      readyState.refresh_rev ∧
    (on_symbols_changed readyState .bufferEdited).ongoing_task.map
      RefreshTask.id = some readyState.next_task_id :=
  c4_schedule_leaves_revision_unchanged readyState rfl rfl [⟨0, 1⟩] rfl

/-- C3 amended: when a refresh completes with an empty result set, the
publish step returns before the splice: no removal happens, nothing is
published and the previously published inlays remain unchanged in the
sink. -/
theorem c3_empty_result_skips_splice (s : SysState) (t : RefreshTask)
    (hot : s.ongoing_task = some t)
    (hph : t.phase = .readyToPublish []) :
    (task_step s).editor.inlays = s.editor.inlays ∧
    (task_step s).published = s.published := by
  unfold task_step
  rw [hot]
  dsimp only
  rw [hph]
  dsimp only
  rw [if_pos (by simp)]
  exact ⟨rfl, rfl⟩

/-- A previously published hint with the first reserved id. -/
def staleHint : Inlay := { id := HINT_BASE_ID, position := 0, text := "1 " }

/-- A state whose refresh task computed an empty inlay set while a hint
from the previous cycle is still in the sink. -/
def c3state : SysState :=
  { enabled := true, refresh_rev := 0,
    ongoing_task := some
      { id := 0, rev := 0, items := [], phase := .readyToPublish [] },
    next_task_id := 1,
    editor := { inlay_hints_enabled := true, is_singleton := true,
                active_excerpt := some [], inlays := [staleHint] },
    env := emptyEnv, published := [] }

/-- C3 counterexample: the refresh completed with zero inlays to insert,
its publish step resumes, and the previously published hint with the
reserved id HINT_BASE_ID is still in the sink: the removal did not happen
and the hints did not disappear. -/
theorem c3_counterexample :
    (task_step c3state).editor.inlays = [staleHint] ∧
    staleHint.id = HINT_BASE_ID :=
  ⟨rfl, rfl⟩

/-- Witness for the amended C3 at a concrete state. -/
theorem c3_empty_result_skips_splice_witness :
    (task_step c3state).editor.inlays = c3state.editor.inlays ∧
    (task_step c3state).published = c3state.published :=
  c3_empty_result_skips_splice c3state _ rfl rfl

/-- C1 amended: a superseded refresh never publishes, but the mechanism is
the drop of its task handle, not the revision check: under satisfied
prerequisites an edit event spawns the next refresh task R2 into
ongoing_task, dropping and thereby aborting the in-flight R1; from that
point no event sequence ever adds a publish tagged with the id of R1. The
scheduling itself leaves refresh_rev exactly unchanged, so the revision
captured at the start of R1 is not invalidated by the supersession. -/
theorem c1_superseded_refresh_never_publishes (s : SysState)
    (t1 : RefreshTask) (evs : List Event)
    (hR1 : s.ongoing_task = some t1)
    (hid : t1.id < s.next_task_id)
    (hen : inlays_enabled s = true)
    (hsing : s.editor.is_singleton = true)
    (items : List OutlineItem)
    (hexc : s.editor.active_excerpt = some items) :
    (step s (.editor .bufferEdited)).ongoing_task.map RefreshTask.id =
      some s.next_task_id ∧
    (step s (.editor .bufferEdited)).refresh_rev = s.refresh_rev ∧
    publishes_by t1.id (run (step s (.editor .bufferEdited)) evs) =
      publishes_by t1.id s := by
  have h : step s (.editor .bufferEdited) =
      { s with
        ongoing_task := some
          { id := s.next_task_id, rev := s.refresh_rev,
            items := items, phase := .sleeping },
        next_task_id := s.next_task_id + 1 } := by
    show on_symbols_changed s .bufferEdited = _
    unfold on_symbols_changed refresh_symbol_ref_hints
    rw [hen, hsing, hexc]
    rfl
  refine ⟨by rw [h]; rfl, by rw [h], ?_⟩
  rw [h]
  refine (run_preserves_superseded t1.id evs _ ?_ ?_).trans rfl
  · show (some s.next_task_id : Option Nat) ≠ some t1.id
    intro hcontra
    rw [Option.some_inj] at hcontra
    omega
  · show t1.id < s.next_task_id + 1
    omega

/-- C1 counterexample: starting from an idle enabled singleton editor, a
first edit event spawns R1, which captures revision 0; a second edit event
triggers R2, and the controller revision is still 0, equal to the revision
captured at the start of R1: the claimed inequality between the captured
revision and the current revision does not arise, because scheduling never
bumps refresh_rev. -/
theorem c1_counterexample :
    (step readyState (.editor .bufferEdited)).ongoing_task.map
      RefreshTask.rev = some 0 ∧
    (step readyState (.editor .bufferEdited)).ongoing_task.map
      RefreshTask.id = some 0 ∧
    (step (step readyState (.editor .bufferEdited))
      (.editor .bufferEdited)).ongoing_task.map RefreshTask.id = some 1 ∧
    (step (step readyState (.editor .bufferEdited))
      (.editor .bufferEdited)).refresh_rev = 0 :=
  ⟨rfl, rfl, rfl, rfl⟩

/-- The state right after R1 was spawned from readyState. -/
def c1wstate : SysState :=
  { enabled := true, refresh_rev := 0,
    ongoing_task := some
      { id := 0, rev := 0, items := [⟨0, 1⟩], phase := .sleeping },
    next_task_id := 1,
    editor := { inlay_hints_enabled := true, is_singleton := true,
                active_excerpt := some [⟨0, 1⟩], inlays := [] },
    env := emptyEnv, published := [] }

/-- Witness for the amended C1 at a concrete state: after the edit event
that spawns R2, running two task resumptions adds no publish tagged with
the id 0 of R1. -/
theorem c1_superseded_refresh_never_publishes_witness :
    (step c1wstate (.editor .bufferEdited)).ongoing_task.map
      RefreshTask.id = some 1 ∧
    (step c1wstate (.editor .bufferEdited)).refresh_rev = 0 ∧
    publishes_by 0 (run (step c1wstate (.editor .bufferEdited))
      [.taskResume, .taskResume]) = publishes_by 0 c1wstate :=
  c1_superseded_refresh_never_publishes c1wstate _
    [.taskResume, .taskResume] rfl (by decide) rfl rfl [⟨0, 1⟩] rfl

/-- The worked example: outline entries starting at offsets 0 and 60. -/
def exItems : List OutlineItem := [⟨0, 50⟩, ⟨60, 120⟩]

/-- The worked example symbol with range [0, 200) and selection [5, 10). -/
def exOuter : DocumentSymbol := .mk 0 200 5 10 []

/-- The worked example symbol with range [60, 100) and selection
[65, 70). -/
def exInner : DocumentSymbol := .mk 60 100 65 70 []

/-- The worked example reference service: the first query returns 3
locations, every later one returns 0 locations. -/
def exReferences : Nat → Nat → QueryOutcome :=
  fun i _ => if i = 0 then .okSome [0, 1, 2] else .okSome []

/-- The query positions of the worked example refresh. -/
def exPositions : List Nat :=
  computePositions (flatten_document_symbols [exOuter, exInner]) exItems

/-- The inlays the worked example refresh hands to the publish splice. -/
def exInlays : List Inlay :=
  buildInlays (fun o => some o) exItems (collectCounts exReferences exPositions 0)

theorem exFlat_eval :
    flatten_document_symbols [exOuter, exInner] = [exInner, exOuter] := by
  simp [flatten_document_symbols, exOuter, exInner, flattenLoop_cons,
    flattenLoop_nil, clearChildren, DocumentSymbol.children]

theorem exPositions_eval : exPositions = [5, 65] := by
  unfold exPositions
  rw [exFlat_eval]
  rfl

theorem exInlays_eval :
    exInlays = [{ id := HINT_BASE_ID, position := 0, text := "3 " },
                { id := HINT_BASE_ID + 1, position := 60, text := "0 " }] := by
  unfold exInlays
  rw [exPositions_eval]
  rfl

/-- C5 counterexample: in the worked example the published inlays sit at
the range starts 0 and 60 of their outline entries, not at the resolved
anchor positions 5 and 65 the claim places them at. -/
theorem c5_counterexample :
    exInlays.map Inlay.position = [0, 60] ∧
    exInlays.map Inlay.position ≠ [5, 65] := by
  have h : exInlays.map Inlay.position = [0, 60] := by
    rw [exInlays_eval]
    rfl
  exact ⟨h, by rw [h]; decide⟩

/-- C5 amended: each published inlay carries the id HINT_BASE_ID plus its
entry index and the text of its reference count, but is rendered at the
range start of its own outline entry; the resolved anchor position is used
only as the reference query position. In the worked example the queries
are issued at positions 5 and 65 and the published inlays are id
HINT_BASE_ID at position 0 with text "3 " and id HINT_BASE_ID + 1 at
position 60 with text "0 ". -/
theorem c5_published_at_entry_start :
    exPositions = [5, 65] ∧
    exInlays = [{ id := HINT_BASE_ID, position := 0, text := "3 " },
                { id := HINT_BASE_ID + 1, position := 60, text := "0 " }] :=
  ⟨exPositions_eval, exInlays_eval⟩
